import Mathlib

/-!
Verification of the transvibe segmentation-to-annotation pipeline
(`src/main.rs`) against its natural-language specification.

The development shallowly embeds the program's state and its two state
mutators:

* `App.on_update` — the reconciler consuming `AppUpdate` events from the
  mpsc channel (`src/main.rs`, `fn on_update`, lines 74-139);
* `App.handle_events` — the keyboard control plane (`fn handle_events`,
  lines 150-252), modelled on the key actually polled; the Ctrl/Alt
  scroll bindings mutate only the ratatui scrollbar state, which is
  rendering-only and outside the modelled state.

The audio side (`audio_processing_task`, lines 578-674) is embedded per
chunk as a pure function from the list of transcription fragments to the
emitted events, and the spawned translation task's post-processing as a
pure function from the raw model output to the emitted event.

Machine integers: the only integers are `usize` sample counters, which the
program only ever adds small values to; they are modelled as `Nat`.
The `f64` no-speech probability is only ever compared against the literal
`0.85`; it is modelled as `ℚ` with the threshold `17/20`.
Strings: Rust `String`/`&str` are modelled as Lean `String`; `trim` and
`replace` are modelled on the underlying character list (Rust trims
Unicode whitespace, the model trims via `Char.isWhitespace`; the
difference is irrelevant to every property proved here, which only ever
trims ordinary spaces).
-/

/-- Events carried by the mpsc channel, mirroring `enum AppUpdate`
(`src/main.rs` lines 17-26). -/
inductive AppUpdate where
  | LiveJapaneseUpdate (s : String)
  | JapaneseSegmentComplete (s : String)
  | EnglishTranslation (s : String)
  | SamplesProcessed (n : Nat)
  | RawSamplesDetected (n : Nat)
  | StatusUpdate (s : String)
  | Error (s : String)
  deriving DecidableEq, Repr

/-- `enum AppInputMode` (`src/main.rs` lines 28-32). -/
inductive AppInputMode where
  | Listening
  | StoppedTyping
  deriving DecidableEq, Repr

/-- Key presses reaching the mode-specific handling of `handle_events`.
`crossterm::event::KeyCode` is restricted to the constructors the handler
matches on. -/
inductive KeyCode where
  | char (c : Char)
  | enter
  | backspace
  | esc
  deriving DecidableEq, Repr

/-- The reconciler state, mirroring `struct App` (`src/main.rs` lines
34-51).  The channel receiver and the ratatui scrollbar fields are
omitted: the former is modelled by feeding events directly to
`App.on_update`, the latter are rendering-only.  The shared
`Arc<AtomicBool>` is modelled as the `Bool` it carries; the reconciler is
its only writer. -/
structure App where
  status : String
  current_live_japanese : String
  completed_japanese : List String
  completed_translations : List String
  should_quit : Bool
  input_mode : AppInputMode
  user_input : String
  is_listening_shared : Bool
  total_samples_listened : Nat
  raw_samples_count : Nat
  deriving DecidableEq, Repr

/-- `App::new` (`src/main.rs` lines 54-72). -/
def App.new : App where
  status := "Initializing... Press 's' to Stop/Start, 'q' to Quit"
  current_live_japanese := ""
  completed_japanese := []
  completed_translations := []
  should_quit := false
  input_mode := AppInputMode.Listening
  user_input := ""
  is_listening_shared := true
  total_samples_listened := 0
  raw_samples_count := 0

/-- One iteration step of the source's
`while completed_translations.len() > completed_japanese.len() { pop }`
loop, fuelled by the list length (each iteration removes the last element,
so `l.length` iterations always suffice). -/
def popLoop : Nat → List String → Nat → List String
  | 0, l, _ => l
  | fuel + 1, l, n => if l.length > n then popLoop fuel l.dropLast n else l

/-- The source's trim-excess loop: pop from the end while the translation
list is longer than `n` (the Japanese list length, constant during the
loop). -/
def popWhileLonger (l : List String) (n : Nat) : List String :=
  popLoop l.length l n

/-- One iteration step of the source's
`while completed_translations.len() < completed_japanese.len()
 { insert(0, "[Pending Translation]") }` loop, fuelled by `n`
(each iteration grows the list, so `n` iterations always suffice). -/
def padLoop : Nat → List String → Nat → List String
  | 0, l, _ => l
  | fuel + 1, l, n =>
      if l.length < n then padLoop fuel ("[Pending Translation]" :: l) n else l

/-- The source's backfill loop: insert `"[Pending Translation]"` at the
front while the translation list is shorter than `n`. -/
def padWhileShorter (l : List String) (n : Nat) : List String :=
  padLoop n l n

/-- `App::on_update` (`src/main.rs` lines 74-139): the reconciler,
consuming one channel event.  Rust `Vec::insert(0, x)` is `x :: l`,
`Vec::pop` removes the last element, `iter().position(..)` is
`List.findIdx?`. -/
def App.on_update (a : App) (update : AppUpdate) : App :=
  match update with
  | .StatusUpdate s => { a with status := s }
  | .LiveJapaneseUpdate s => { a with current_live_japanese := s }
  | .JapaneseSegmentComplete jp_text =>
      let completed_japanese := jp_text :: a.completed_japanese
      let completed_translations := "Translating..." :: a.completed_translations
      { a with
        completed_japanese := completed_japanese
        current_live_japanese := ""
        completed_translations :=
          popWhileLonger completed_translations completed_japanese.length }
  | .EnglishTranslation en_text =>
      let jp_len := a.completed_japanese.length
      let tr_len := a.completed_translations.length
      -- Try to update the placeholder at index 0 (the newest); else find
      -- the first "Translating..." placeholder; else, if lengths allow,
      -- insert the new translation at the top; else leave unchanged.
      let tr :=
        if 0 < tr_len ∧ a.completed_translations.headD "" = "Translating..." then
          a.completed_translations.set 0 en_text
        else
          match a.completed_translations.findIdx? (fun t => t == "Translating...") with
          | some index => a.completed_translations.set index en_text
          | none =>
              if tr_len < jp_len then en_text :: a.completed_translations
              else a.completed_translations
      { a with completed_translations :=
          padWhileShorter (popWhileLonger tr jp_len) jp_len }
  | .SamplesProcessed samples =>
      { a with
        total_samples_listened := a.total_samples_listened + samples
        raw_samples_count := 0 }
  | .RawSamplesDetected samples =>
      { a with raw_samples_count := a.raw_samples_count + samples }
  | .Error err_msg => { a with status := "ERROR: " ++ err_msg }

/-- The mode-specific key handling of `App::handle_events` (`src/main.rs`
lines 184-247), applied to the polled key. -/
def App.handle_events (a : App) (k : KeyCode) : App :=
  if k = KeyCode.esc then { a with should_quit := true }
  else
    match a.input_mode with
    | .Listening =>
      match k with
      | .char 'q' => { a with should_quit := true, status := "Exiting..." }
      | .char 's' =>
          { a with
            input_mode := AppInputMode.StoppedTyping
            is_listening_shared := false
            status := "Stopped. Press 's' to Start. Type your message, Enter to process."
            current_live_japanese := ""
            user_input := "" }
      | _ => a
    | .StoppedTyping =>
      match k with
      | .char 'q' => { a with should_quit := true, status := "Exiting..." }
      | .char 's' =>
          { a with
            input_mode := AppInputMode.Listening
            is_listening_shared := true
            status := "Starting... Press 's' to Stop/Start, 'q' to Quit"
            user_input := "" }
      | .enter =>
          if a.user_input ≠ "" then
            let completed_japanese :=
              a.completed_japanese ++ ["[User Input]: " ++ a.user_input]
            let completed_translations :=
              if a.completed_translations.length < completed_japanese.length then
                a.completed_translations ++ ["Translating user input..."]
              else a.completed_translations
            { a with
              completed_japanese := completed_japanese
              completed_translations := completed_translations
              status := "Input '" ++ a.user_input ++ "' submitted. Press 's' to start listening."
              user_input := "" }
          else a
      | .char c => { a with user_input := a.user_input.push c }
      | .backspace => { a with user_input := String.mk a.user_input.data.dropLast }
      | .esc => a

/-- An input to the reconciler's owning loop: either a channel event
(`handle_updates` → `on_update`) or a key press (`handle_events`). -/
inductive Ev where
  | update (u : AppUpdate)
  | key (k : KeyCode)
  deriving DecidableEq, Repr

/-- One reconciler step. -/
def App.step (a : App) (e : Ev) : App :=
  match e with
  | .update u => a.on_update u
  | .key k => a.handle_events k

/-- The state after consuming a sequence of inputs from the initial
state: every reachable state of the program is of this form. -/
def runEvents (evs : List Ev) : App :=
  evs.foldl App.step App.new

/-! ## The audio processing task, per chunk -/

/-- One transcription fragment of a chunk: the text and the engine's
no-speech probability (`transcribed.text()`,
`transcribed.probability_of_no_speech()`). -/
structure Fragment where
  text : String
  probability_of_no_speech : ℚ
  deriving DecidableEq, Repr

/-- The source's threshold literal `0.85` (= 17/20), given in reduced
form so that comparisons compute. -/
def no_speech_threshold : ℚ := ⟨17, 20, by decide, by decide⟩

/-- The transcription loop of `audio_processing_task` (`src/main.rs`
lines 578-588): fragments whose no-speech probability is below the
threshold are appended to the accumulated segment text and a
`LiveJapaneseUpdate` carrying the cumulative text is emitted; the rest
are dropped.  Returns the final accumulated text and the emitted events
in order. -/
def transcribe_loop : List Fragment → String → String × List AppUpdate
  | [], acc => (acc, [])
  | t :: rest, acc =>
      if t.probability_of_no_speech < no_speech_threshold then
        let acc2 := acc ++ t.text
        let r := transcribe_loop rest acc2
        (r.1, AppUpdate.LiveJapaneseUpdate acc2 :: r.2)
      else transcribe_loop rest acc

/-- Rust `str::trim`: drop whitespace from both ends, modelled on the
character list. -/
def strTrim (s : String) : String :=
  String.mk
    (((s.data.dropWhile Char.isWhitespace).reverse.dropWhile Char.isWhitespace).reverse)

/-- The events emitted when a chunk's partial-result stream ends
(`src/main.rs` lines 590-670, ignoring the fire-and-forget translation
task): if the accumulated text has a positive character count after
trimming, the segment is finalized; otherwise a live update carrying the
empty string clears the stale partial display.  (The trailing
`StatusUpdate("Listening...")` of the chunk loop is emitted after either
branch and is not part of the branch itself.) -/
def chunk_end_events (final_text : String) : List AppUpdate :=
  if 0 < (strTrim final_text).length then
    [AppUpdate.JapaneseSegmentComplete final_text,
     AppUpdate.StatusUpdate "Translating to English..."]
  else [AppUpdate.LiveJapaneseUpdate ""]

/-- The texts dispatched to the spawned translation tasks for one chunk:
exactly the finalized segment's text, and nothing otherwise.  In
particular the typed-input path (`KeyCode::Enter` in `handle_events`)
never dispatches a translation task — `handle_events` only mutates the
state. -/
def chunk_dispatches (final_text : String) : List String :=
  if 0 < (strTrim final_text).length then [final_text] else []

/-- Discriminator for live-update events. -/
def isLiveUpdate : AppUpdate → Bool
  | .LiveJapaneseUpdate _ => true
  | _ => false

/-- The cumulative texts of the live updates emitted by the transcription
loop, in emission order. -/
def liveTexts (frags : List Fragment) (acc : String) : List String :=
  (transcribe_loop frags acc).2.map fun u =>
    match u with
    | .LiveJapaneseUpdate s => s
    | _ => ""

/-! ## The spawned translation task's post-processing -/

/-- One step of left-to-right removal of every occurrence of `pat` from a
character list (Rust `str::replace(pat, "")`), fuelled by the list length
(each step consumes at least one character, so the fuel never runs
out). -/
def removeLoop : Nat → List Char → List Char → List Char
  | 0, _, s => s
  | _, _, [] => []
  | fuel + 1, pat, c :: rest =>
      if pat ≠ [] ∧ pat.isPrefixOf (c :: rest) then
        removeLoop fuel pat ((c :: rest).drop pat.length)
      else c :: removeLoop fuel pat rest

/-- Rust `str::replace(pat, "")`: remove every (non-overlapping,
left-to-right) occurrence of `pat`. -/
def replace_marker (pat s : String) : String :=
  String.mk (removeLoop s.data.length pat.data s.data)

/-- The cleaning applied to the raw model output in the spawned
translation task (`src/main.rs` lines 624-628): strip the chat-template
markers, then trim. -/
def cleaned_translation (raw_translation : String) : String :=
  strTrim (replace_marker "<|im_end|>" (replace_marker "<|im_start|>" raw_translation))

/-- The event the spawned translation task emits on completion
(`src/main.rs` lines 651-663). -/
def translation_update (raw_translation : String) : AppUpdate :=
  if !(cleaned_translation raw_translation).isEmpty then
    AppUpdate.EnglishTranslation (cleaned_translation raw_translation)
  else
    AppUpdate.EnglishTranslation "[No translation generated]"

/-! ## Spec-side definitions for the tie-break refinement (C1) -/

/-- Where the spec's tie-break policy places an annotation-ready result. -/
inductive Placement where
  | fillNewest
  | fillAt (i : Nat)
  | appendNew
  | leave
  deriving DecidableEq, Repr

/-- The spec's tie-break policy, in order: (a) if the most-recently-pending
slot — index 0 of the newest-first annotation list — is still Pending,
fill it; (b) else fill the earliest remaining Pending slot found scanning
the newest-first list; (c) else, if the annotation list is shorter than
the unit list, append a new Ready entry at the top; otherwise leave the
list unchanged. -/
def choose_placement (jp tr : List String) : Placement :=
  if tr.head? = some "Translating..." then Placement.fillNewest
  else
    match tr.findIdx? (fun t => t == "Translating...") with
    | some i => Placement.fillAt i
    | none =>
        if tr.length < jp.length then Placement.appendNew else Placement.leave

/-- Apply a placement decision to the annotation list. -/
def apply_placement (en : String) (tr : List String) : Placement → List String
  | .fillNewest => tr.set 0 en
  | .fillAt i => tr.set i en
  | .appendNew => en :: tr
  | .leave => tr

/-- The spec's defensive repair step: trim excess annotation entries from
the tail, then backfill missing Pending placeholders at the front, up to
the unit-list length `n`. -/
def defensive_repair (tr : List String) (n : Nat) : List String :=
  padWhileShorter (popWhileLonger tr n) n

/-! ## Helper lemmas -/

theorem popLoop_of_le {l : List String} {n : Nat} (fuel : Nat)
    (h : l.length ≤ n) : popLoop fuel l n = l := by
  cases fuel with
  | zero => rfl
  | succ fuel =>
      show (if l.length > n then popLoop fuel l.dropLast n else l) = l
      rw [if_neg (by omega)]

theorem popWhileLonger_of_le {l : List String} {n : Nat}
    (h : l.length ≤ n) : popWhileLonger l n = l :=
  popLoop_of_le l.length h

theorem length_popLoop : ∀ (fuel : Nat) (l : List String) (n : Nat),
    l.length ≤ fuel + n → (popLoop fuel l n).length = min l.length n := by
  intro fuel
  induction fuel with
  | zero =>
      intro l n h
      simp only [popLoop]
      omega
  | succ fuel ih =>
      intro l n h
      by_cases hl : l.length > n
      · simp only [popLoop, if_pos hl]
        have hdrop : l.dropLast.length = l.length - 1 := List.length_dropLast l
        have := ih l.dropLast n (by omega)
        rw [this, hdrop]
        omega
      · simp only [popLoop, if_neg hl]
        omega

theorem length_popWhileLonger (l : List String) (n : Nat) :
    (popWhileLonger l n).length = min l.length n :=
  length_popLoop l.length l n (by omega)

theorem padLoop_of_ge {l : List String} {n : Nat} (fuel : Nat)
    (h : n ≤ l.length) : padLoop fuel l n = l := by
  cases fuel with
  | zero => rfl
  | succ fuel =>
      show (if l.length < n then padLoop fuel ("[Pending Translation]" :: l) n else l) = l
      rw [if_neg (by omega)]

theorem padWhileShorter_of_ge {l : List String} {n : Nat}
    (h : n ≤ l.length) : padWhileShorter l n = l :=
  padLoop_of_ge n h

theorem length_padLoop : ∀ (fuel : Nat) (l : List String) (n : Nat),
    n ≤ l.length + fuel → (padLoop fuel l n).length = max l.length n := by
  intro fuel
  induction fuel with
  | zero =>
      intro l n h
      simp only [padLoop]
      omega
  | succ fuel ih =>
      intro l n h
      by_cases hl : l.length < n
      · simp only [padLoop, if_pos hl]
        have := ih ("[Pending Translation]" :: l) n (by simp; omega)
        rw [this]
        simp
        omega
      · simp only [padLoop, if_neg hl]
        omega

theorem length_padWhileShorter (l : List String) (n : Nat) :
    (padWhileShorter l n).length = max l.length n :=
  length_padLoop n l n (by omega)

theorem length_defensive_repair (l : List String) (n : Nat) :
    (defensive_repair l n).length = n := by
  unfold defensive_repair
  rw [length_padWhileShorter, length_popWhileLonger]
  omega

/-- `EnglishTranslation` leaves the unit list untouched. -/
theorem et_japanese (a : App) (en : String) :
    (a.on_update (.EnglishTranslation en)).completed_japanese =
      a.completed_japanese := rfl

/-- After consuming an `EnglishTranslation` event the defensive repair
step has forced the two history lists to the same length, whatever the
starting state. -/
theorem et_translations_length (a : App) (en : String) :
    ((a.on_update (.EnglishTranslation en)).completed_translations).length =
      a.completed_japanese.length := by
  show (padWhileShorter (popWhileLonger _ _) _).length = _
  rw [length_padWhileShorter, length_popWhileLonger]
  omega

/-- When the two history lists already have equal length (as they do in
every reachable state), the `EnglishTranslation` handler reduces to: fill
slot 0 if it holds the placeholder, else fill the first placeholder found,
else change nothing — and the defensive repair step is a no-op. -/
theorem et_translations_of_eq (a : App) (en : String)
    (h : a.completed_translations.length = a.completed_japanese.length) :
    (a.on_update (.EnglishTranslation en)).completed_translations =
      (if 0 < a.completed_translations.length ∧
          a.completed_translations.headD "" = "Translating..." then
        a.completed_translations.set 0 en
      else
        match a.completed_translations.findIdx? (fun t => t == "Translating...") with
        | some i => a.completed_translations.set i en
        | none => a.completed_translations) := by
  show padWhileShorter (popWhileLonger _ _) _ = _
  by_cases h0 : 0 < a.completed_translations.length ∧
      a.completed_translations.headD "" = "Translating..."
  · rw [if_pos h0, if_pos h0,
      popWhileLonger_of_le (by simp [h]), padWhileShorter_of_ge (by simp [h])]
  · rw [if_neg h0, if_neg h0]
    cases hidx : a.completed_translations.findIdx? (fun t => t == "Translating...") with
    | some i =>
        simp only [hidx]
        rw [popWhileLonger_of_le (by simp [h]), padWhileShorter_of_ge (by simp [h])]
    | none =>
        simp only [hidx]
        rw [if_neg (by omega),
          popWhileLonger_of_le (by omega), padWhileShorter_of_ge (by omega)]

/-- Every single reconciler step preserves equality of the two history
list lengths. -/
theorem step_preserves_len (a : App) (e : Ev)
    (h : a.completed_translations.length = a.completed_japanese.length) :
    ((a.step e).completed_translations).length =
      ((a.step e).completed_japanese).length := by
  cases e with
  | update u =>
      cases u with
      | LiveJapaneseUpdate s => exact h
      | StatusUpdate s => exact h
      | SamplesProcessed n => exact h
      | RawSamplesDetected n => exact h
      | Error s => exact h
      | JapaneseSegmentComplete s =>
          show (popWhileLonger ("Translating..." :: a.completed_translations)
              (s :: a.completed_japanese).length).length =
            (s :: a.completed_japanese).length
          rw [length_popWhileLonger]
          simp [h]
      | EnglishTranslation en => exact et_translations_length a en
  | key k =>
      show ((a.handle_events k).completed_translations).length =
        ((a.handle_events k).completed_japanese).length
      unfold App.handle_events
      split
      · exact h
      · split
        · -- Listening mode
          split <;> exact h
        · -- StoppedTyping mode
          split
          · exact h
          · exact h
          · -- Enter key: maybe append a surrogate unit and its placeholder
            split
            · dsimp only
              split
              · simp only [List.length_append, List.length_cons, List.length_nil]
                omega
              · simp only [List.length_append, List.length_cons,
                  List.length_nil, not_lt] at *
                omega
            · exact h
          · exact h
          · exact h
          · exact h

/-- In every reachable state the two history lists have exactly equal
length: each appended unit (live-finalized or typed surrogate) carries
exactly one positionally aligned annotation entry. -/
theorem runEvents_len (evs : List Ev) :
    ((runEvents evs).completed_translations).length =
      ((runEvents evs).completed_japanese).length := by
  suffices hgen : ∀ (l : List Ev) (a : App),
      a.completed_translations.length = a.completed_japanese.length →
      ((l.foldl App.step a).completed_translations).length =
        ((l.foldl App.step a).completed_japanese).length from
    hgen evs App.new rfl
  intro l
  induction l with
  | nil => intro a h; exact h
  | cons e l ih => intro a h; exact ih (a.step e) (step_preserves_len a e h)

/-- C3: after every sequence of reconciler inputs (channel events and key
presses) processed from the initial state, the annotation list is never
longer than the unit list; in fact the two lengths are always equal, so
every appended unit — live-finalized via `JapaneseSegmentComplete` or
typed surrogate via the Enter handler — has exactly one positionally
aligned annotation entry (Pending or Ready) from its insertion onward. -/
theorem reconciler_history_invariant (evs : List Ev) :
    ((runEvents evs).completed_translations).length ≤
        ((runEvents evs).completed_japanese).length ∧
      ((runEvents evs).completed_translations).length =
        ((runEvents evs).completed_japanese).length :=
  ⟨Nat.le_of_eq (runEvents_len evs), runEvents_len evs⟩

/-- C4: delivering the same `EnglishTranslation` event a second time
never changes the length of either history list — in any state (even an
unreachable one), because the first delivery's defensive repair step has
already equalised the two lengths, so the second delivery can only
overwrite a slot in place, never grow or shrink a list. -/
theorem translation_event_idempotent_lengths (a : App) (en : String) :
    (((a.on_update (.EnglishTranslation en)).on_update
          (.EnglishTranslation en)).completed_translations).length =
        ((a.on_update (.EnglishTranslation en)).completed_translations).length ∧
      (((a.on_update (.EnglishTranslation en)).on_update
          (.EnglishTranslation en)).completed_japanese).length =
        ((a.on_update (.EnglishTranslation en)).completed_japanese).length := by
  constructor
  · rw [et_translations_length, et_translations_length, et_japanese]
  · rw [et_japanese]

/-- C1: the `EnglishTranslation` handler places an annotation-ready
result exactly by the spec's tie-break policy — (a) fill slot 0 of the
newest-first annotation list if it is still the `"Translating..."`
placeholder, (b) else fill the first (scanning newest-first) remaining
placeholder, (c) else, if the annotation list is shorter than the unit
list, add a new Ready entry at the top — and when none applies the
annotation list is changed only by the defensive repair step (trim excess
from the tail, backfill `"[Pending Translation]"` placeholders at the
front), which runs after every placement. -/
theorem english_translation_tiebreak (a : App) (en : String) :
    (a.on_update (.EnglishTranslation en)).completed_translations =
      defensive_repair
        (apply_placement en a.completed_translations
          (choose_placement a.completed_japanese a.completed_translations))
        a.completed_japanese.length := by
  show padWhileShorter (popWhileLonger _ _) _ = padWhileShorter (popWhileLonger _ _) _
  congr 2
  unfold choose_placement
  by_cases h0 : a.completed_translations.head? = some "Translating..."
  · rw [if_pos h0]
    rw [if_pos]
    · rfl
    · cases hl : a.completed_translations with
      | nil => rw [hl] at h0; simp at h0
      | cons x l =>
          rw [hl] at h0
          simp only [List.head?_cons, Option.some.injEq] at h0
          constructor
          · simp
          · simp [h0]
  · rw [if_neg h0]
    rw [if_neg]
    · cases hidx : a.completed_translations.findIdx? (fun t => t == "Translating...") with
      | some i => simp [hidx, apply_placement]
      | none =>
          simp only [hidx]
          by_cases hlen : a.completed_translations.length < a.completed_japanese.length
          · simp [hlen, apply_placement]
          · simp [hlen, apply_placement]
    · intro hcon
      rcases hcon with ⟨hpos, hhead⟩
      apply h0
      cases hl : a.completed_translations with
      | nil => rw [hl] at hpos; simp at hpos
      | cons x l =>
          rw [hl] at hhead
          simp only [List.headD_cons] at hhead
          simp [hhead]


/-- If slot 0 holds the `"Translating..."` placeholder and the history
lengths agree, an annotation-ready result fills slot 0. -/
theorem et_fills_head (a : App) (en : String) (l : List String)
    (htr : a.completed_translations = "Translating..." :: l)
    (hlen : a.completed_translations.length = a.completed_japanese.length) :
    (a.on_update (.EnglishTranslation en)).completed_translations = en :: l := by
  rw [et_translations_of_eq a en hlen, htr]
  rw [if_pos ⟨by simp [htr], by simp [htr]⟩]
  simp [htr]

/-- If slot 0 does not hold the placeholder but slot 1 does, and the
history lengths agree, an annotation-ready result fills slot 1. -/
theorem et_fills_second (a : App) (en x : String) (l : List String)
    (hx : x ≠ "Translating...")
    (htr : a.completed_translations = x :: "Translating..." :: l)
    (hlen : a.completed_translations.length = a.completed_japanese.length) :
    (a.on_update (.EnglishTranslation en)).completed_translations =
      x :: en :: l := by
  rw [et_translations_of_eq a en hlen, htr]
  rw [if_neg (by simp [htr, hx])]
  simp [List.findIdx?_cons, hx]

/-- After two segments finalize, both annotation slots are pending. -/
theorem two_segments_pending :
    ((App.new.on_update (.JapaneseSegmentComplete "first")).on_update
      (.JapaneseSegmentComplete "second")).completed_translations =
      ["Translating...", "Translating..."] := rfl

/-- After two segments finalize, the unit list holds them newest-first. -/
theorem two_segments_units :
    ((App.new.on_update (.JapaneseSegmentComplete "first")).on_update
      (.JapaneseSegmentComplete "second")).completed_japanese =
      ["second", "first"] := rfl

/-- C2 counterexample (the spec's Scenario 2): unit C1 finalizes
("first"), then unit C2 finalizes ("second"), then C1's annotation
"Hello" arrives while both slots are pending.  The claim demands C1's
slot (index 1 of the newest-first lists) become Ready "Hello" with C2's
slot still Pending; the code instead fills the NEWEST pending slot —
index 0, which belongs to C2 — and leaves C1's slot pending. -/
theorem out_of_order_attribution_counterexample :
    ((runEvents [.update (.JapaneseSegmentComplete "first"),
        .update (.JapaneseSegmentComplete "second"),
        .update (.EnglishTranslation "Hello")]).completed_japanese
        = ["second", "first"]) ∧
      ((runEvents [.update (.JapaneseSegmentComplete "first"),
          .update (.JapaneseSegmentComplete "second"),
          .update (.EnglishTranslation "Hello")]).completed_translations
          = ["Hello", "Translating..."]) ∧
      "Translating..." ≠ "Hello" := by
  refine ⟨?_, ?_, by decide⟩
  · show (((App.new.on_update (.JapaneseSegmentComplete "first")).on_update
        (.JapaneseSegmentComplete "second")).on_update
        (.EnglishTranslation "Hello")).completed_japanese = _
    rw [et_japanese]
    rfl
  · show (((App.new.on_update (.JapaneseSegmentComplete "first")).on_update
        (.JapaneseSegmentComplete "second")).on_update
        (.EnglishTranslation "Hello")).completed_translations = _
    exact et_fills_head _ "Hello" ["Translating..."] rfl rfl

set_option maxHeartbeats 1600000 in
/-- C2 amended: with units A (text `ta`, finalized first) and B (text
`tb`, finalized second) both pending, the first-arriving result always
fills the newest slot (index 0, B's).  Delivering B's result `rb` and
then A's result `ra` therefore ends correctly attributed as `[rb, ra]`;
delivering A's result first ends as `[ra, rb]` — both slots Ready and
neither result dropped, but each annotation attached to the other's
unit. -/
theorem out_of_order_results_both_orders (ta tb ra rb : String)
    (hra : ra ≠ "Translating...") (hrb : rb ≠ "Translating...") :
    ((runEvents [.update (.JapaneseSegmentComplete ta),
        .update (.JapaneseSegmentComplete tb),
        .update (.EnglishTranslation rb),
        .update (.EnglishTranslation ra)]).completed_translations = [rb, ra]) ∧
      ((runEvents [.update (.JapaneseSegmentComplete ta),
          .update (.JapaneseSegmentComplete tb),
          .update (.EnglishTranslation ra),
          .update (.EnglishTranslation rb)]).completed_translations = [ra, rb]) := by
  have step2 : ∀ x y : String, x ≠ "Translating..." →
      ((((App.new.on_update (.JapaneseSegmentComplete ta)).on_update
            (.JapaneseSegmentComplete tb)).on_update
          (.EnglishTranslation x)).on_update
        (.EnglishTranslation y)).completed_translations = [x, y] := by
    intro x y hx
    have h3 : (((App.new.on_update (.JapaneseSegmentComplete ta)).on_update
        (.JapaneseSegmentComplete tb)).on_update
        (.EnglishTranslation x)).completed_translations = [x, "Translating..."] :=
      et_fills_head _ x ["Translating..."] rfl rfl
    have hlen3 : ((((App.new.on_update (.JapaneseSegmentComplete ta)).on_update
        (.JapaneseSegmentComplete tb)).on_update
        (.EnglishTranslation x)).completed_translations).length =
        ((((App.new.on_update (.JapaneseSegmentComplete ta)).on_update
        (.JapaneseSegmentComplete tb)).on_update
        (.EnglishTranslation x)).completed_japanese).length := by
      rw [h3, et_japanese]
      rfl
    exact et_fills_second _ y x [] hx h3 hlen3
  exact ⟨step2 rb ra hrb, step2 ra rb hra⟩

/-- Witness for the amended C2 theorem at concrete inputs. -/
theorem out_of_order_results_both_orders_witness :
    ((runEvents [.update (.JapaneseSegmentComplete "A"),
        .update (.JapaneseSegmentComplete "B"),
        .update (.EnglishTranslation "World"),
        .update (.EnglishTranslation "Hello")]).completed_translations
        = ["World", "Hello"]) ∧
      ((runEvents [.update (.JapaneseSegmentComplete "A"),
          .update (.JapaneseSegmentComplete "B"),
          .update (.EnglishTranslation "Hello"),
          .update (.EnglishTranslation "World")]).completed_translations
          = ["Hello", "World"]) :=
  out_of_order_results_both_orders "A" "B" "Hello" "World" (by decide) (by decide)

/-- C7 counterexample: the claimed scenario — toggle to Typing with 's',
type "test", press Enter — cannot behave as claimed, for two reasons
visible here.  Pressing the 's' of "test" while Typing matches the
`KeyCode::Char('s')` arm, which toggles back to Listening, sets the
shared flag to `true` and clears the input buffer; the trailing 't' and
the Enter are then consumed by Listening mode, which ignores them.  The
final state has an empty history (no unit "test" was appended, with or
without a Pending annotation) and the listening flag is `true`, not
false throughout. -/
theorem typed_input_scenario_counterexample :
    ((runEvents [.key (.char 's'), .key (.char 't'), .key (.char 'e'),
        .key (.char 's'), .key (.char 't'), .key .enter]).completed_japanese
        = []) ∧
      ((runEvents [.key (.char 's'), .key (.char 't'), .key (.char 'e'),
          .key (.char 's'), .key (.char 't'), .key .enter]).completed_translations
          = []) ∧
      ((runEvents [.key (.char 's'), .key (.char 't'), .key (.char 'e'),
          .key (.char 's'), .key (.char 't'), .key .enter]).is_listening_shared
          = true) ∧
      ((runEvents [.key (.char 's'), .key (.char 't'), .key (.char 'e'),
          .key (.char 's'), .key (.char 't'), .key .enter]).input_mode
          = AppInputMode.Listening) := by
  refine ⟨rfl, rfl, rfl, rfl⟩

/-- C7 amended: submitting typed input works only for text avoiding the
reserved keys 'q', 's' and Esc; and the unit is stored with the
`"[User Input]: "` prefix, not as the bare typed text.  Toggling to
Typing with 's', typing "hi" and pressing Enter appends the
already-finalized surrogate unit "[User Input]: hi" (at the oldest end of
the newest-first list) together with exactly one Pending annotation
`"Translating user input..."`, with the listening flag false after the
toggle and after every subsequent key, and with no live-update phase
(the live text stays empty throughout). -/
theorem typed_input_submit_amended :
    ((runEvents [.key (.char 's'), .key (.char 'h'), .key (.char 'i'),
        .key .enter]).completed_japanese = ["[User Input]: hi"]) ∧
      ((runEvents [.key (.char 's'), .key (.char 'h'), .key (.char 'i'),
          .key .enter]).completed_translations = ["Translating user input..."]) ∧
      ((runEvents [.key (.char 's')]).is_listening_shared = false) ∧
      ((runEvents [.key (.char 's'), .key (.char 'h')]).is_listening_shared = false) ∧
      ((runEvents [.key (.char 's'), .key (.char 'h'),
          .key (.char 'i')]).is_listening_shared = false) ∧
      ((runEvents [.key (.char 's'), .key (.char 'h'), .key (.char 'i'),
          .key .enter]).is_listening_shared = false) ∧
      ((runEvents [.key (.char 's')]).current_live_japanese = "") ∧
      ((runEvents [.key (.char 's'), .key (.char 'h')]).current_live_japanese = "") ∧
      ((runEvents [.key (.char 's'), .key (.char 'h'),
          .key (.char 'i')]).current_live_japanese = "") ∧
      ((runEvents [.key (.char 's'), .key (.char 'h'), .key (.char 'i'),
          .key .enter]).current_live_japanese = "") := by
  refine ⟨rfl, rfl, rfl, rfl, rfl, rfl, rfl, rfl, rfl, rfl⟩

/-- Setting an index other than `j` leaves entry `j` unchanged. -/
theorem getElem?_set_preserve {l : List String} {i j : Nat} {en : String}
    (hij : i ≠ j) : (l.set i en)[j]? = l[j]? := by
  rw [List.getElem?_set, if_neg hij]

/-- Overwriting an entry that is not `v` cannot decrease the number of
occurrences of `v`. -/
theorem count_le_count_set {l : List String} {i : Nat} {y en v : String}
    (hy : l[i]? = some y) (hne : y ≠ v) :
    l.count v ≤ (l.set i en).count v := by
  induction l generalizing i with
  | nil => simp
  | cons a l ih =>
      cases i with
      | zero =>
          simp only [List.getElem?_cons_zero, Option.some.injEq] at hy
          subst hy
          simp only [List.set_cons_zero, List.count_cons]
          have hav : (a == v) = false := by simp [hne]
          rw [hav]
          simp
      | succ i =>
          simp only [List.getElem?_cons_succ] at hy
          simp only [List.set_cons_succ, List.count_cons]
          have := ih hy
          omega

/-- A successful `findIdx?` for the placeholder predicate returns an
index at which the list holds `"Translating..."`. -/
theorem findIdx?_placeholder {l : List String} {i : Nat}
    (h : l.findIdx? (fun t => t == "Translating...") = some i) :
    l[i]? = some "Translating..." := by
  rcases List.findIdx?_eq_some_iff_getElem.1 h with ⟨hi, hp, _⟩
  have hval : l[i] = "Translating..." := by
    have hp' : (l[i] == "Translating...") = true := hp
    exact eq_of_beq hp'
  rw [List.getElem?_eq_getElem hi, hval]

/-- The head condition of the `EnglishTranslation` handler pins entry 0
to the placeholder. -/
theorem head_cond_placeholder {l : List String}
    (h : 0 < l.length ∧ l.headD "" = "Translating...") :
    l[0]? = some "Translating..." := by
  rcases h with ⟨hpos, hhead⟩
  cases l with
  | nil => simp at hpos
  | cons x t =>
      simp only [List.headD_cons] at hhead
      simp [hhead]

/-- In a state with equal history lengths (every reachable state), an
`EnglishTranslation` event never changes an entry holding the surrogate
placeholder `"Translating user input..."`: the handler only ever
overwrites an entry equal to `"Translating..."`. -/
theorem et_preserves_surrogate_entry (a : App) (en : String) (i : Nat)
    (h : a.completed_translations.length = a.completed_japanese.length)
    (hi : (a.completed_translations)[i]? = some "Translating user input...") :
    ((a.on_update (.EnglishTranslation en)).completed_translations)[i]?
      = some "Translating user input..." := by
  rw [et_translations_of_eq a en h]
  by_cases h0 : 0 < a.completed_translations.length ∧
      a.completed_translations.headD "" = "Translating..."
  · rw [if_pos h0]
    have h0' := head_cond_placeholder h0
    have hne : i ≠ 0 := by
      intro he
      rw [he] at hi
      rw [hi] at h0'
      simp at h0'
    rw [getElem?_set_preserve (fun he => hne he.symm)]
    exact hi
  · rw [if_neg h0]
    cases hidx : a.completed_translations.findIdx? (fun t => t == "Translating...") with
    | some j =>
        simp only
        have hj := findIdx?_placeholder hidx
        have hne : j ≠ i := by
          intro he
          rw [he] at hj
          rw [hi] at hj
          simp at hj
        rw [getElem?_set_preserve hne]
        exact hi
    | none => simpa using hi

/-- In a state with equal history lengths, no single reconciler step can
decrease the number of surrogate placeholders `"Translating user
input..."` in the annotation list. -/
theorem step_count_surrogate (a : App) (e : Ev)
    (h : a.completed_translations.length = a.completed_japanese.length) :
    a.completed_translations.count "Translating user input..." ≤
      ((a.step e).completed_translations).count "Translating user input..." := by
  cases e with
  | update u =>
      cases u with
      | LiveJapaneseUpdate s => exact Nat.le_refl _
      | StatusUpdate s => exact Nat.le_refl _
      | SamplesProcessed n => exact Nat.le_refl _
      | RawSamplesDetected n => exact Nat.le_refl _
      | Error s => exact Nat.le_refl _
      | JapaneseSegmentComplete s =>
          show _ ≤ (popWhileLonger ("Translating..." :: a.completed_translations)
              (s :: a.completed_japanese).length).count "Translating user input..."
          rw [popWhileLonger_of_le (by simp [h]), List.count_cons]
          simp
      | EnglishTranslation en =>
          show _ ≤ ((a.on_update (.EnglishTranslation en)).completed_translations).count _
          rw [et_translations_of_eq a en h]
          by_cases h0 : 0 < a.completed_translations.length ∧
              a.completed_translations.headD "" = "Translating..."
          · rw [if_pos h0]
            exact count_le_count_set (head_cond_placeholder h0) (by decide)
          · rw [if_neg h0]
            cases hidx : a.completed_translations.findIdx?
                (fun t => t == "Translating...") with
            | some j =>
                simp only
                exact count_le_count_set (findIdx?_placeholder hidx) (by decide)
            | none => simp
  | key k =>
      show _ ≤ ((a.handle_events k).completed_translations).count _
      unfold App.handle_events
      split
      · exact Nat.le_refl _
      · split
        · split <;> exact Nat.le_refl _
        · split
          · exact Nat.le_refl _
          · exact Nat.le_refl _
          · split
            · dsimp only
              split
              · rw [List.count_append]
                omega
              · exact Nat.le_refl _
            · exact Nat.le_refl _
          · exact Nat.le_refl _
          · exact Nat.le_refl _
          · exact Nat.le_refl _

/-- C10: the surrogate unit's annotation placeholder is never filled.
(1) The surrogate placeholder `"Translating user input..."` differs from
the placeholder `"Translating..."` that the `EnglishTranslation` handler
matches on; (2) hence in every reachable state, an annotation-ready event
leaves every surrogate placeholder entry exactly where and as it was; and
(3) no subsequent input of any kind (channel event or key press) can
decrease the number of surrogate placeholders — so a surrogate's
annotation slot stays Pending for the lifetime of the program.  (No
annotation task is ever dispatched for typed input: the Enter handler of
`handle_events` only mutates the state and spawns nothing; translation
dispatch exists only on the audio path, `chunk_dispatches`.) -/
theorem surrogate_placeholder_never_filled :
    ("Translating user input..." ≠ "Translating...") ∧
      (∀ (evs : List Ev) (en : String) (i : Nat),
        ((runEvents evs).completed_translations)[i]?
            = some "Translating user input..." →
        (((runEvents evs).on_update
            (.EnglishTranslation en)).completed_translations)[i]?
          = some "Translating user input...") ∧
      (∀ (evs : List Ev) (e : Ev),
        ((runEvents evs).completed_translations).count "Translating user input..." ≤
          (((runEvents evs).step e).completed_translations).count
            "Translating user input...") := by
  refine ⟨by decide, ?_, ?_⟩
  · intro evs en i hi
    exact et_preserves_surrogate_entry (runEvents evs) en i (runEvents_len evs) hi
  · intro evs e
    exact step_count_surrogate (runEvents evs) e (runEvents_len evs)

/-- Witness for C10 at a concrete reachable state: after submitting the
typed input "h", the surrogate's Pending slot survives an arriving
annotation-ready event untouched. -/
theorem surrogate_placeholder_never_filled_witness :
    (((runEvents [.key (.char 's'), .key (.char 'h'),
        .key .enter]).on_update
        (.EnglishTranslation "Hi")).completed_translations)[0]?
      = some "Translating user input..." :=
  surrogate_placeholder_never_filled.2.1
    [.key (.char 's'), .key (.char 'h'), .key .enter] "Hi" 0 rfl

/-! ## Claims about the audio processing task -/

/-- Spec-side definition for C6: the concatenation, in order, of the
texts of exactly those fragments whose no-speech probability is strictly
below the threshold; rejected fragments contribute nothing. -/
def accepted_concat (frags : List Fragment) : String :=
  ((frags.filter fun t =>
      decide (t.probability_of_no_speech < no_speech_threshold)).map
    Fragment.text).foldr (· ++ ·) ""

theorem transcribe_loop_final : ∀ (frags : List Fragment) (acc : String),
    (transcribe_loop frags acc).1 = acc ++ accepted_concat frags := by
  intro frags
  induction frags with
  | nil =>
      intro acc
      simp [transcribe_loop, accepted_concat]
  | cons t rest ih =>
      intro acc
      by_cases hp : t.probability_of_no_speech < no_speech_threshold
      · simp only [transcribe_loop, if_pos hp]
        rw [ih (acc ++ t.text)]
        simp [accepted_concat, hp, String.append_assoc]
      · simp only [transcribe_loop, if_neg hp]
        rw [ih acc]
        simp [accepted_concat, hp]

theorem transcribe_loop_events_count : ∀ (frags : List Fragment) (acc : String),
    ((transcribe_loop frags acc).2).length =
      ((frags.filter fun t =>
        decide (t.probability_of_no_speech < no_speech_threshold))).length := by
  intro frags
  induction frags with
  | nil => intro acc; simp [transcribe_loop]
  | cons t rest ih =>
      intro acc
      by_cases hp : t.probability_of_no_speech < no_speech_threshold
      · simp only [transcribe_loop, if_pos hp]
        simp [hp, ih]
      · simp only [transcribe_loop, if_neg hp]
        simp [hp, ih]

/-- C6: a fragment's text is appended to the accumulated segment text
(with one cumulative live update emitted for it) exactly when its
no-speech probability is strictly below `0.85`; fragments at or above the
threshold are rejected and contribute nothing — the final segment text is
precisely the in-order concatenation of the accepted fragments' texts,
and the number of live updates equals the number of accepted
fragments. -/
theorem fragment_threshold_filter (frags : List Fragment) :
    (transcribe_loop frags "").1 = accepted_concat frags ∧
      ((transcribe_loop frags "").2).length =
        ((frags.filter fun t =>
          decide (t.probability_of_no_speech < no_speech_threshold))).length := by
  constructor
  · rw [transcribe_loop_final frags ""]
    exact String.empty_append _
  · exact transcribe_loop_events_count frags ""

theorem transcribe_loop_all_live : ∀ (frags : List Fragment) (acc : String),
    ((transcribe_loop frags acc).2).all isLiveUpdate = true := by
  intro frags
  induction frags with
  | nil => intro acc; simp [transcribe_loop]
  | cons t rest ih =>
      intro acc
      by_cases hp : t.probability_of_no_speech < no_speech_threshold
      · simp only [transcribe_loop, if_pos hp]
        simp [isLiveUpdate, ih]
      · simp only [transcribe_loop, if_neg hp]
        exact ih acc

/-- C5: every event of the transcription loop itself is a live update —
so the only stream-end emission is `chunk_end_events` — and at stream end
exactly one of the two closing events is emitted, never both: the
`JapaneseSegmentComplete` carrying the accumulated text when its trimmed
character count is positive, the empty-string `LiveJapaneseUpdate`
otherwise (no unit finalized). -/
theorem chunk_end_exclusive (frags : List Fragment) :
    (((transcribe_loop frags "").2).all isLiveUpdate = true) ∧
      (0 < (strTrim (transcribe_loop frags "").1).length →
        chunk_end_events (transcribe_loop frags "").1 =
          [AppUpdate.JapaneseSegmentComplete (transcribe_loop frags "").1,
           AppUpdate.StatusUpdate "Translating to English..."]) ∧
      ((strTrim (transcribe_loop frags "").1).length = 0 →
        chunk_end_events (transcribe_loop frags "").1 =
          [AppUpdate.LiveJapaneseUpdate ""]) := by
  refine ⟨transcribe_loop_all_live frags "", ?_, ?_⟩
  · intro hpos
    rw [chunk_end_events, if_pos hpos]
  · intro hzero
    rw [chunk_end_events, if_neg (by omega)]

/-- Witness for C5: a confident fragment finalizes the unit; an empty
stream emits only the clearing live update. -/
theorem chunk_end_exclusive_witness :
    (chunk_end_events (transcribe_loop [⟨"x", 0⟩] "").1 =
        [AppUpdate.JapaneseSegmentComplete (transcribe_loop [⟨"x", 0⟩] "").1,
         AppUpdate.StatusUpdate "Translating to English..."]) ∧
      (chunk_end_events (transcribe_loop [] "").1 =
        [AppUpdate.LiveJapaneseUpdate ""]) :=
  ⟨(chunk_end_exclusive [⟨"x", 0⟩]).2.1 (by decide),
   (chunk_end_exclusive []).2.2 (by decide)⟩

theorem liveTexts_chain_from : ∀ (frags : List Fragment) (acc : String),
    List.Chain' (fun a b : String => ∃ t, a ++ t = b) (liveTexts frags acc) ∧
      (∀ x, (liveTexts frags acc).head? = some x → ∃ t, acc ++ t = x) := by
  intro frags
  induction frags with
  | nil =>
      intro acc
      constructor
      · simp [liveTexts, transcribe_loop]
      · intro x hx
        simp [liveTexts, transcribe_loop] at hx
  | cons f rest ih =>
      intro acc
      by_cases hp : f.probability_of_no_speech < no_speech_threshold
      · have hunf : liveTexts (f :: rest) acc =
            (acc ++ f.text) :: liveTexts rest (acc ++ f.text) := by
          simp [liveTexts, transcribe_loop, hp]
        rw [hunf]
        constructor
        · rw [List.chain'_cons']
          refine ⟨?_, (ih (acc ++ f.text)).1⟩
          intro y hy
          exact (ih (acc ++ f.text)).2 y hy
        · intro x hx
          simp only [List.head?_cons, Option.some.injEq] at hx
          exact ⟨f.text, hx⟩
      · have hunf : liveTexts (f :: rest) acc = liveTexts rest acc := by
          simp [liveTexts, transcribe_loop, hp]
        rw [hunf]
        exact ih acc

/-- C8: within one chunk, the live updates emitted by the transcription
loop are cumulative — each update's text extends the previous one's (the
previous text is a prefix, witnessed by the appended suffix), so the
observed text lengths are monotonically non-decreasing across the chunk's
live updates. -/
theorem live_updates_cumulative (frags : List Fragment) :
    List.Chain' (fun a b : String => ∃ t, a ++ t = b) (liveTexts frags "") ∧
      List.Chain' (fun a b : String => a.length ≤ b.length) (liveTexts frags "") := by
  refine ⟨(liveTexts_chain_from frags "").1, ?_⟩
  refine List.Chain'.imp ?_ (liveTexts_chain_from frags "").1
  intro a b hab
  rcases hab with ⟨t, ht⟩
  rw [← ht, String.length_append]
  omega

/-- C9: the spawned translation task never emits an empty annotation —
when the cleaned result (chat-template markers removed, then trimmed) is
empty it substitutes the sentinel `"[No translation generated]"`, and
otherwise it emits the cleaned result itself. -/
theorem empty_translation_sentinel (raw_translation : String) :
    (translation_update raw_translation ≠ AppUpdate.EnglishTranslation "") ∧
      (cleaned_translation raw_translation = "" →
        translation_update raw_translation =
          AppUpdate.EnglishTranslation "[No translation generated]") ∧
      (cleaned_translation raw_translation ≠ "" →
        translation_update raw_translation =
          AppUpdate.EnglishTranslation (cleaned_translation raw_translation)) := by
  by_cases hc : cleaned_translation raw_translation = ""
  · have hemp : (cleaned_translation raw_translation).isEmpty = true :=
      (String.isEmpty_iff _).2 hc
    refine ⟨?_, fun _ => ?_, fun hne => absurd hc hne⟩
    · rw [translation_update, hemp, if_neg (by decide)]
      decide
    · rw [translation_update, hemp, if_neg (by decide)]
  · have hemp : (cleaned_translation raw_translation).isEmpty = false := by
      rcases h : (cleaned_translation raw_translation).isEmpty with _ | _
      · rfl
      · exact absurd ((String.isEmpty_iff _).1 h) hc
    refine ⟨?_, fun he => absurd he hc, fun _ => ?_⟩
    · rw [translation_update, hemp, if_pos (by decide)]
      simp only [ne_eq, AppUpdate.EnglishTranslation.injEq]
      exact hc
    · rw [translation_update, hemp, if_pos (by decide)]

/-- Witness for C9: a raw output consisting only of chat-template markers
cleans to the empty string and is replaced by the sentinel; a plain raw
output passes through cleaned. -/
theorem empty_translation_sentinel_witness :
    (translation_update "<|im_start|><|im_end|>" =
        AppUpdate.EnglishTranslation "[No translation generated]") ∧
      (translation_update "Hello" = AppUpdate.EnglishTranslation "Hello") := by
  constructor
  · exact (empty_translation_sentinel "<|im_start|><|im_end|>").2.1 (by decide)
  · have h := (empty_translation_sentinel "Hello").2.2 (by decide)
    rw [show cleaned_translation "Hello" = "Hello" from by decide] at h
    exact h
